import Mathlib

/-!
Verification of the shredr_fun connection-broadcast subsystem.

Shallow embedding of the core of `shredr-backend`:

* `src/websocket.rs` — `WebSocketMessage`, its serde serialization, the
  `websocket` session function (registry increment/decrement, the outbound
  `send_task` loop over a `tokio::sync::watch` receiver, the inbound
  `recv_task` loop, and the `select!`-based joint shutdown);
* `src/webhook.rs` — `helius_webhook_handler`, which publishes into the
  watch channel;
* `src/main.rs` — the initial `Status` seed value installed in the channel
  at startup, and the fact that `WebSocketState` retains a receiver for the
  whole process lifetime.

The `tokio::sync::watch` channel is modelled by its documented semantics:
a single slot holding the latest value plus a version counter; a receiver
holds a `seen` version; `changed()` resolves as soon as the channel version
differs from `seen` and marks `seen` to the version it observed; `borrow()`
reads the current slot value without touching `seen`; `Receiver::clone`
copies the `seen` version of the receiver it was cloned from;
`Sender::send` fails exactly when no receiver exists.

Machine integers: `clients_count` is a Rust `usize`; `+= 1` / `-= 1` in a
release build wrap modulo `2^64` (a debug build would panic on overflow
instead of wrapping; neither saturates).
-/

namespace Shredr

/-- Width of a Rust `usize` on the 64-bit targets the backend deploys to. -/
def usizeSize : Nat := 2 ^ 64

/-- Rust `*count += 1` on a `usize`, release-build semantics (wrapping add). -/
def usizeAdd1 (n : Nat) : Nat := (n + 1) % usizeSize

/-- Rust `*count -= 1` on a `usize`, release-build semantics (wrapping sub);
a debug build panics here when `n = 0`, and neither build saturates. -/
def usizeSub1 (n : Nat) : Nat := (n + (usizeSize - 1)) % usizeSize

/-! Section: JSON values (the image of `serde_json::Value`). -/

/-- A JSON value, as produced by `serde_json`.  Object fields are kept in
serialization order. -/
inductive Json where
  | null : Json
  | bool (b : Bool) : Json
  | num (n : Int) : Json
  | str (s : String) : Json
  | arr (elems : List Json) : Json
  | obj (fields : List (String × Json)) : Json
  deriving Repr

/-- The field names of a JSON object, in serialization order (empty for a
non-object). -/
def Json.objKeys : Json → List String
  | .obj fields => fields.map Prod.fst
  | _ => []

/-- Look up a field of a JSON object (`none` for a non-object or a missing
key). -/
def Json.field : Json → String → Option Json
  | .obj fields, k => fields.lookup k
  | _, _ => none

/-! Section: the message enum of src/websocket.rs, lines 20–38.

Timestamps (`chrono::DateTime<Utc>`) serialize to their RFC 3339 / ISO 8601
string rendering; the embedding carries that rendering as a `String`. -/

/-- The wire message enum of `src/websocket.rs`.  `#[serde(tag = "type")]`
with variant renames `"transaction"` / `"status"`; the field identifiers
`data`, `timestamp`, `clients_count` carry no `rename` attribute. -/
inductive WebSocketMessage where
  | Transaction (data : Json) (timestamp : String)
  | Status (clients_count : Nat) (timestamp : String)
  deriving Repr

/-- Serde serialization of `WebSocketMessage`: internally tagged
(`tag = "type"`), tag field first, then the variant's fields under their
Rust identifiers in declaration order.  `WebSocketMessage::to_text` renders
exactly this object as a JSON string. -/
def WebSocketMessage.serialize : WebSocketMessage → Json
  | .Transaction data timestamp =>
      .obj [("type", .str "transaction"), ("data", data), ("timestamp", .str timestamp)]
  | .Status clients_count timestamp =>
      .obj [("type", .str "status"), ("clients_count", .num clients_count),
            ("timestamp", .str timestamp)]

/-! Section: the session registry (`clients_count`).

`websocket` takes the mutex and runs `*count += 1` before spawning the two
loops, and takes the mutex and runs `*count -= 1` after the `select!`.
Under the mutex each mutation is atomic, so a concurrent history is a
sequence of atomic increments and decrements. -/

/-- One serialized registry mutation. -/
inductive RegOp where
  | inc : RegOp
  | dec : RegOp
  deriving Repr, DecidableEq

/-- One registry mutation applied to a count, with the `usize` arithmetic
of the source. -/
def regStep (n : Nat) : RegOp → Nat
  | .inc => usizeAdd1 n
  | .dec => usizeSub1 n

/-- Apply a serialized history of registry mutations to a starting count. -/
def applyOps (ops : List RegOp) (n : Nat) : Nat := ops.foldl regStep n

/-- The serialized history produced by `N` session starts followed by `M`
session ends (all starts are identical `inc` events and all ends identical
`dec` events, so every interleaving of the starts among themselves, and of
the ends among themselves, yields this same history). -/
def startsThenEnds (N M : Nat) : List RegOp :=
  List.replicate N .inc ++ List.replicate M .dec

/-! Section: the watch channel and one subscriber's outbound loop as a trace machine.

The outbound loop of `websocket` (src/websocket.rs, lines 63–72) is

```rust
while let Ok(()) = rx.changed().await {
    let msg = rx.borrow().clone();
    ...send...
}
```

over `rx = state.rx.clone()`.  The clone inherits the `seen` version of
`state.rx`, the receiver created by `watch::channel(initial_message)` in
`main.rs` and never read through `changed()`, so every subscriber starts
with `seen = 0` regardless of how many publishes preceded its connection.

`changed()` and `borrow()` are two separate atomic actions of the
subscriber task; a producer running `tx.send` on another runtime thread can
interleave between them.  A run is therefore an arbitrary interleaving of
three atomic steps:

* `publish v` — `tx.send(v)`: store `v` in the slot, bump the version;
* `wake` — the pending `rx.changed().await` resolves: enabled only when the
  loop is between iterations (`pending = false`) and the channel version
  differs from `seen`; it sets `seen` to the version it observed;
* `read` — `rx.borrow().clone()` plus the send to the peer: enabled only
  right after a `wake` (`pending = true`); it records the value currently
  in the slot.

A step whose enabling condition fails is a no-op (the task is blocked, or
the schedule point does not correspond to a loop action). -/

variable {V : Type}

/-- One atomic step of a producer/subscriber interleaving. -/
inductive Step (V : Type) where
  | publish (v : V) : Step V
  | wake : Step V
  | read : Step V

/-- Joint state of the watch channel and one subscriber's outbound loop.
`obs` records, in order, each value the loop read from the slot and sent to
the peer, paired with the channel version at the moment of the read. -/
structure SubState (V : Type) where
  value : V
  version : Nat
  seen : Nat
  pending : Bool
  obs : List (Nat × V)

/-- The channel/subscriber state at process start: `main.rs` seeds the
channel with `initial_message` (version 0) and the subscriber's cloned
receiver has `seen = 0`, no resolved `changed()`, and nothing sent. -/
def initState (v0 : V) : SubState V :=
  { value := v0, version := 0, seen := 0, pending := false, obs := [] }

/-- Small-step semantics of one interleaving step. -/
def stepRun : Step V → SubState V → SubState V
  | .publish v, s => { s with value := v, version := s.version + 1 }
  | .wake, s =>
      if s.pending = false ∧ s.seen ≠ s.version then
        { s with seen := s.version, pending := true }
      else s
  | .read, s =>
      if s.pending then
        { s with pending := false, obs := s.obs ++ [(s.version, s.value)] }
      else s

/-- Run a whole schedule from a state. -/
def runSteps (sched : List (Step V)) (s : SubState V) : SubState V :=
  sched.foldl (fun t st => stepRun st t) s

/-- The value a step publishes, if it is a publish step. -/
def pubOf : Step V → Option V
  | .publish v => some v
  | .wake => none
  | .read => none

/-- The values published by a schedule, in publish order. -/
def pubsOf (sched : List (Step V)) : List V := sched.filterMap pubOf

/-- The value the channel slot holds once the publishes `pubs` have been
applied on top of seed `v0`: the last publish, or the seed if none. -/
def slotValue (v0 : V) (pubs : List V) : V := pubs.foldl (fun _ v => v) v0

/-- Joint state at the instant a subscriber connects after `pubs` values
have already been published: the slot holds the latest publish, and the
subscriber's receiver — `state.rx.clone()` — inherits `seen = 0` from the
never-read receiver stored in `WebSocketState` at startup. -/
def connectAfter (v0 : V) (pubs : List V) : SubState V :=
  runSteps (pubs.map Step.publish) (initState v0)

/-- A schedule in which the second publish races between the subscriber's
`rx.changed().await` and its `rx.borrow()`. -/
def dupSched : List (Step Nat) :=
  [.publish 1, .wake, .publish 2, .read, .wake, .read]

/-- A subscriber that blocks until a change and then reads, once per
publish: the schedule of the coalescing property's second half. -/
def checkEach (vs : List V) : List (Step V) :=
  vs.flatMap (fun v => [.publish v, .wake, .read])

/-- Publishes first, one check at the very end: the schedule of the
coalescing property's first half. -/
def checkAfterAll (vs : List V) : List (Step V) :=
  (vs.map .publish) ++ [.wake, .read]

/-! Section: termination behaviour of the outbound loop (src/websocket.rs 63–72).

Each iteration first awaits `rx.changed()` — `Ok(())` once a new version is
available, `Err(RecvError)` once the sender is dropped with no unseen value
— and then, on `Ok`, sends the serialized value to the peer, which either
succeeds or fails (peer gone).  The loop body is driven by the stream of
these per-iteration outcomes. -/

/-- Outcome of one `rx.changed().await`. -/
inductive ChangedResult where
  | ok : ChangedResult
  | closed : ChangedResult
  deriving Repr, DecidableEq

/-- Outcome of one `sender.send(Message::Text(text)).await`. -/
inductive SendResult where
  | sent : SendResult
  | failed : SendResult
  deriving Repr, DecidableEq

/-- How (whether) the outbound loop has ended after consuming a finite
stream of iteration outcomes.  The task's body returns `()` in every case:
both terminal variants are normal loop exits (`while let` mismatch /
`break`), and no error value leaves the task. -/
inductive SendLoopOutcome where
  | terminatedChannelClosed : SendLoopOutcome
  | terminatedSendFailure : SendLoopOutcome
  | stillRunning : SendLoopOutcome
  deriving Repr, DecidableEq

/-- One iteration of the outbound loop, as a transition on its outcome so
far: while still running, a closed channel exits the `while let` header, a
failed send runs `break`, a successful send continues; once one of the two
terminal exits has occurred no further iteration runs, so later stream
items leave the outcome unchanged. -/
def sendLoopStep : SendLoopOutcome → ChangedResult × SendResult → SendLoopOutcome
  | .stillRunning, (.closed, _) => .terminatedChannelClosed
  | .stillRunning, (.ok, .failed) => .terminatedSendFailure
  | .stillRunning, (.ok, .sent) => .stillRunning
  | out, _ => out

/-- The outbound loop over a finite prefix of iteration outcomes:
`while let Ok(()) = rx.changed().await { ...; if send.is_err() { break } }`.
An exhausted stream means the loop is still blocked in `changed()`. -/
def sendLoop (env : List (ChangedResult × SendResult)) : SendLoopOutcome :=
  env.foldl sendLoopStep .stillRunning

/-! Section: termination behaviour of the inbound loop (src/websocket.rs 75–88).

`while let Some(Ok(msg)) = receiver.next().await` with a match that logs
text frames, `break`s on `Close`, and ignores everything else. -/

/-- An inbound frame, the `axum::extract::ws::Message` cases distinguished
by the `recv_task` match: `Text` (logged), `Close` (break), and the
wildcard arm (`Binary`/`Ping`/`Pong`, ignored). -/
inductive WsMessage where
  | text (s : String) : WsMessage
  | binary : WsMessage
  | ping : WsMessage
  | pong : WsMessage
  | close : WsMessage
  deriving Repr, DecidableEq

/-- One item of `receiver.next().await`: a frame, a connection/IO error, or
end of stream (`None`). -/
inductive RecvItem where
  | frame (m : WsMessage) : RecvItem
  | ioError : RecvItem
  | streamEnd : RecvItem
  deriving Repr, DecidableEq

/-- How (whether) the inbound loop has ended after consuming a finite
prefix of the inbound stream. -/
inductive RecvLoopOutcome where
  | closeRequested : RecvLoopOutcome
  | connectionError : RecvLoopOutcome
  | connectionEnded : RecvLoopOutcome
  | stillRunning : RecvLoopOutcome
  deriving Repr, DecidableEq

/-- One iteration of the inbound loop, as a transition on its outcome so
far: while still running, the `while let Some(Ok(msg))` header exits on
`None` (stream over) or `Some(Err(_))` (connection error), and the body
`break`s on a `Close` frame and continues on every other frame whatever
its content; once the loop has ended, later stream items leave the outcome
unchanged. -/
def recvLoopStep : RecvLoopOutcome → RecvItem → RecvLoopOutcome
  | .stillRunning, .streamEnd => .connectionEnded
  | .stillRunning, .ioError => .connectionError
  | .stillRunning, .frame .close => .closeRequested
  | .stillRunning, .frame (.text _) => .stillRunning
  | .stillRunning, .frame .binary => .stillRunning
  | .stillRunning, .frame .ping => .stillRunning
  | .stillRunning, .frame .pong => .stillRunning
  | out, _ => out

/-- The inbound loop over a finite prefix of the inbound stream. -/
def recvLoop (items : List RecvItem) : RecvLoopOutcome :=
  items.foldl recvLoopStep .stillRunning

/-- An inbound item that keeps the loop running. -/
def RecvItem.continuing : RecvItem → Bool
  | .frame (.text _) => true
  | .frame .binary => true
  | .frame .ping => true
  | .frame .pong => true
  | _ => false

/-! Section: the watch sender and `helius_webhook_handler` (src/webhook.rs 25–58).

`tokio::sync::watch::Sender::send` fails exactly when the channel is
closed, i.e. when no `Receiver` exists.  `main.rs` stores the receiver
returned by `watch::channel` inside the `Arc<WebSocketState>` that the
router keeps for the whole process lifetime, so at least one receiver
always exists. -/

/-- The producer-visible state of the watch channel: the slot plus the
number of live receiver handles. -/
structure WatchChannel (V : Type) where
  value : V
  version : Nat
  receiverCount : Nat

/-- Model of `Sender::send`: replaces the slot and notifies, failing (returning the
rejected value) exactly when no receiver exists. -/
def watchSend (ch : WatchChannel V) (v : V) : Except V (WatchChannel V) :=
  if ch.receiverCount = 0 then .error v
  else .ok { ch with value := v, version := ch.version + 1 }

/-- The HTTP response of the webhook handler: status code and the
`WebhookResponse.message` string. -/
structure HandlerResponse where
  status : Nat
  message : String
  deriving Repr, DecidableEq

/-- Embedding of `helius_webhook_handler`: wraps the (already JSON-validated) payload in
a `WebSocketMessage::Transaction` stamped `Utc::now()` (passed in as the
rendered timestamp `now`) and sends it; `Ok` ⇒ 200, `Err` ⇒ 500. -/
def helius_webhook_handler (ch : WatchChannel WebSocketMessage) (payload : Json)
    (now : String) : HandlerResponse × WatchChannel WebSocketMessage :=
  let ws_message := WebSocketMessage.Transaction payload now
  match watchSend ch ws_message with
  | .ok ch' => (⟨200, "Webhook received and broadcast"⟩, ch')
  | .error _ => (⟨500, "Failed to broadcast: channel closed"⟩, ch)

/-! Section: session lifecycle (src/websocket.rs 48–102).

The `websocket` function, sequentially: lock the mutex and increment;
spawn `send_task` and `recv_task`; `select!` on the two join handles —
when one finishes, `abort()` the other (an aborted tokio task suspended at
an `.await` never executes further user code, and both loop bodies are
single `await`-chains, so after the abort neither loop takes another
observable step); lock the mutex and decrement.  Every exit cause of
either loop flows through this same straight-line suffix. -/

/-- Why a session ends: the first loop exit that fires. -/
inductive ExitCause where
  | sendFailure : ExitCause
  | channelClosed : ExitCause
  | closeFrame : ExitCause
  | connectionError : ExitCause
  | bothLoopsFinish : ExitCause
  deriving Repr, DecidableEq

/-- The observable lifecycle events of one session, in the order the
`websocket` function produces them. -/
inductive SessionEvent where
  | increment : SessionEvent
  | sendLoopStopped : SessionEvent
  | recvLoopStopped : SessionEvent
  | decrement : SessionEvent
  deriving Repr, DecidableEq

/-- Whether an exit cause terminates the outbound loop first (`send_task`
finishes, `recv_task` is aborted) or the inbound loop first.  When both
finish together, `select!` picks a branch pseudo-randomly; `selectSend`
records its choice and the `abort()` on the already-finished sibling is a
no-op. -/
def sessionTrace (c : ExitCause) (selectSend : Bool) : List SessionEvent :=
  [.increment] ++
  (match c, selectSend with
   | .sendFailure, _ => [.sendLoopStopped, .recvLoopStopped]
   | .channelClosed, _ => [.sendLoopStopped, .recvLoopStopped]
   | .closeFrame, _ => [.recvLoopStopped, .sendLoopStopped]
   | .connectionError, _ => [.recvLoopStopped, .sendLoopStopped]
   | .bothLoopsFinish, true => [.sendLoopStopped, .recvLoopStopped]
   | .bothLoopsFinish, false => [.recvLoopStopped, .sendLoopStopped]) ++
  [.decrement]

/-- Run invariant tying the joint channel/subscriber state to the publishes
`pubs` executed so far: the channel version counts the publishes and the
slot holds the latest one; the receiver's `seen` version never exceeds the
channel version, and is at least 1 while a resolved `changed()` is pending;
every recorded observation was read at a version between 1 and the current
one — so it is the value of that publish, never the seed — and the
observations' versions are recorded in non-decreasing order. -/
structure Inv (v0 : V) (pubs : List V) (s : SubState V) : Prop where
  version_eq : s.version = pubs.length
  value_eq : s.value = slotValue v0 pubs
  seen_le : s.seen ≤ s.version
  pending_pos : s.pending = true → 1 ≤ s.seen
  obs_mem : ∀ p ∈ s.obs,
    1 ≤ p.1 ∧ p.1 ≤ pubs.length ∧ p.2 = slotValue v0 (pubs.take p.1)
  obs_sorted : (s.obs.map Prod.fst).Pairwise (· ≤ ·)

/-! Section: helper lemmas. -/

lemma usizeSize_eq : usizeSize = 18446744073709551616 := by norm_num [usizeSize]

lemma usizeAdd1_eq (n : Nat) (h : n + 1 < usizeSize) : usizeAdd1 n = n + 1 := by
  simp [usizeAdd1, Nat.mod_eq_of_lt h]

lemma usizeSub1_eq (n : Nat) (h0 : 0 < n) (h : n < usizeSize) : usizeSub1 n = n - 1 := by
  rw [usizeSize_eq] at h
  simp only [usizeSub1, usizeSize_eq]
  omega

lemma applyOps_nil (n : Nat) : applyOps [] n = n := by
  simp [applyOps]

lemma applyOps_cons (op : RegOp) (ops : List RegOp) (n : Nat) :
    applyOps (op :: ops) n = applyOps ops (regStep n op) := by
  simp [applyOps]

lemma regStep_inc (n : Nat) : regStep n RegOp.inc = usizeAdd1 n := rfl

lemma regStep_dec (n : Nat) : regStep n RegOp.dec = usizeSub1 n := rfl

lemma applyOps_append (l1 l2 : List RegOp) (n : Nat) :
    applyOps (l1 ++ l2) n = applyOps l2 (applyOps l1 n) := by
  induction l1 generalizing n with
  | nil => rw [List.nil_append, applyOps_nil]
  | cons op ops ih => rw [List.cons_append, applyOps_cons, applyOps_cons, ih]

lemma applyOps_replicate_inc (k : Nat) : ∀ n, n + k < usizeSize →
    applyOps (List.replicate k RegOp.inc) n = n + k := by
  induction k with
  | zero => intro n _; rw [List.replicate_zero, applyOps_nil]; omega
  | succ k ih =>
    intro n h
    rw [List.replicate_succ, applyOps_cons, regStep_inc, usizeAdd1_eq n (by omega),
      ih (n + 1) (by omega)]
    omega

lemma applyOps_replicate_dec (m : Nat) : ∀ n, m ≤ n → n < usizeSize →
    applyOps (List.replicate m RegOp.dec) n = n - m := by
  induction m with
  | zero => intro n _ _; rw [List.replicate_zero, applyOps_nil]; omega
  | succ m ih =>
    intro n hm h
    rw [List.replicate_succ, applyOps_cons, regStep_dec, usizeSub1_eq n (by omega) h,
      ih (n - 1) (by omega) (by omega)]
    omega

/-! Section: claim theorems about the registry. -/

/-- C6: for every `N` concurrent session starts followed by `M` concurrent
session ends with `M ≤ N`, after all increments and decrements settle the
registry counter reads exactly `N - M`, regardless of the interleaving of
the concurrent sessions (the starts are identical atomic `inc` events under
the mutex and the ends identical atomic `dec` events, so every interleaving
serializes to the same history `startsThenEnds N M`).  The bound
`N < usizeSize` records that the count is a 64-bit `usize`. -/
theorem registry_count_correct (N M : Nat) (hMN : M ≤ N) (hN : N < usizeSize) :
    applyOps (startsThenEnds N M) 0 = N - M := by
  rw [startsThenEnds, applyOps_append, applyOps_replicate_inc N 0 (by omega)]
  rw [Nat.zero_add]
  exact applyOps_replicate_dec M N hMN hN

/-- Witness for C6 at `N = 3`, `M = 2`. -/
theorem registry_count_correct_witness :
    (2 ≤ 3 ∧ 3 < usizeSize) ∧ applyOps (startsThenEnds 3 2) 0 = 3 - 2 :=
  ⟨⟨by decide, by decide⟩, registry_count_correct 3 2 (by decide) (by decide)⟩

/-- C4 (code bug): the spec requires `decrement()` on an already-zero count
to saturate at zero, but the source's `*count -= 1` on a `usize` does not:
in a release build the count wraps to `2^64 - 1` (and a debug build panics
on the overflow check); in neither build does the count stay at zero. -/
theorem decrement_at_zero_wraps :
    usizeSub1 0 = usizeSize - 1 ∧ usizeSub1 0 ≠ 0 := by
  constructor <;> decide

/-- C3: on every exit cause of a session (outbound send failure, channel
closed, inbound close frame, inbound connection error, or both loops
finishing together, whichever branch the `select!` takes), the lifecycle
trace of `websocket` increments the registry exactly once, as its first
event and hence before either loop stops, and decrements it exactly once,
as its last event and hence after both loops have stopped. -/
theorem session_registry_discipline (c : ExitCause) (b : Bool) :
    (sessionTrace c b).count SessionEvent.increment = 1 ∧
    (sessionTrace c b).count SessionEvent.decrement = 1 ∧
    (sessionTrace c b).head? = some SessionEvent.increment ∧
    (sessionTrace c b).getLast? = some SessionEvent.decrement ∧
    SessionEvent.sendLoopStopped ∈ sessionTrace c b ∧
    SessionEvent.recvLoopStopped ∈ sessionTrace c b := by
  cases c <;> cases b <;> decide

/-- C5 (counterexample): the serialized status frame names its count field
`clients_count` — the Rust field identifier, which carries no serde
`rename` attribute — not `clientsCount` as the claim states. -/
theorem status_frame_uses_snake_case :
    (WebSocketMessage.serialize (.Status 7 "2026-01-01T00:00:00Z")).objKeys
      = ["type", "clients_count", "timestamp"] ∧
    "clientsCount" ∉
      (WebSocketMessage.serialize (.Status 7 "2026-01-01T00:00:00Z")).objKeys := by
  constructor <;> decide

/-- C5 (amended): every serialized frame is a tagged JSON union: the status
variant has exactly the fields `type = "status"`, `clients_count` (integer)
and `timestamp` (ISO 8601 string), and the transaction variant exactly
`type = "transaction"`, `data` (the opaque payload) and `timestamp`. -/
theorem wire_frame_shape (d : Json) (n : Nat) (ts : String) :
    (WebSocketMessage.serialize (.Transaction d ts)).objKeys
      = ["type", "data", "timestamp"] ∧
    (WebSocketMessage.serialize (.Transaction d ts)).field "type"
      = some (.str "transaction") ∧
    (WebSocketMessage.serialize (.Transaction d ts)).field "data" = some d ∧
    (WebSocketMessage.serialize (.Transaction d ts)).field "timestamp"
      = some (.str ts) ∧
    (WebSocketMessage.serialize (.Status n ts)).objKeys
      = ["type", "clients_count", "timestamp"] ∧
    (WebSocketMessage.serialize (.Status n ts)).field "type"
      = some (.str "status") ∧
    (WebSocketMessage.serialize (.Status n ts)).field "clients_count"
      = some (.num n) ∧
    (WebSocketMessage.serialize (.Status n ts)).field "timestamp"
      = some (.str ts) := by
  refine ⟨rfl, ?_, ?_, ?_, rfl, ?_, ?_, ?_⟩ <;>
    simp [WebSocketMessage.serialize, Json.field, List.lookup]

/-- C7: while the process-wide `WebSocketState` retains a receiver
(`receiverCount ≥ 1`, true for the whole process lifetime since `main.rs`
stores the channel's receiver in the router state), the watch send cannot
fail, so `helius_webhook_handler` never reaches its 500 branch and always
answers 200 "Webhook received and broadcast". -/
theorem webhook_publish_infallible (ch : WatchChannel WebSocketMessage)
    (payload : Json) (now : String) (h : 1 ≤ ch.receiverCount) :
    (helius_webhook_handler ch payload now).1.status = 200 ∧
    (helius_webhook_handler ch payload now).1.message
      = "Webhook received and broadcast" ∧
    watchSend ch (WebSocketMessage.Transaction payload now)
      = .ok { ch with value := WebSocketMessage.Transaction payload now,
                      version := ch.version + 1 } := by
  have hne : ¬ ch.receiverCount = 0 := by omega
  rw [helius_webhook_handler, watchSend]
  simp [hne]

/-- Witness for C7 on a channel with one live receiver. -/
theorem webhook_publish_infallible_witness :
    1 ≤ (WatchChannel.mk (WebSocketMessage.Status 0 "t0") 0 1).receiverCount ∧
    ((helius_webhook_handler ⟨WebSocketMessage.Status 0 "t0", 0, 1⟩ Json.null
        "t1").1.status = 200 ∧
     (helius_webhook_handler ⟨WebSocketMessage.Status 0 "t0", 0, 1⟩ Json.null
        "t1").1.message = "Webhook received and broadcast" ∧
     watchSend ⟨WebSocketMessage.Status 0 "t0", 0, 1⟩
        (WebSocketMessage.Transaction Json.null "t1")
       = .ok ⟨WebSocketMessage.Transaction Json.null "t1", 1, 1⟩) :=
  ⟨Nat.le_refl 1,
   webhook_publish_infallible ⟨WebSocketMessage.Status 0 "t0", 0, 1⟩ Json.null
     "t1" (Nat.le_refl 1)⟩

/-! Section: lemmas and claim theorems about the two session loops. -/

lemma sendLoopStep_absorb (out : SendLoopOutcome)
    (h : out ≠ SendLoopOutcome.stillRunning) (x : ChangedResult × SendResult) :
    sendLoopStep out x = out := by
  obtain ⟨c, r⟩ := x
  cases out with
  | stillRunning => exact absurd rfl h
  | terminatedChannelClosed => cases c <;> cases r <;> rfl
  | terminatedSendFailure => cases c <;> cases r <;> rfl

lemma foldl_sendLoopStep_terminal (env : List (ChangedResult × SendResult))
    (out : SendLoopOutcome) (h : out ≠ SendLoopOutcome.stillRunning) :
    env.foldl sendLoopStep out = out := by
  induction env with
  | nil => rfl
  | cons x rest ih => rw [List.foldl_cons, sendLoopStep_absorb out h x, ih]

lemma sendLoop_stillRunning_iff (env : List (ChangedResult × SendResult)) :
    sendLoop env = SendLoopOutcome.stillRunning ↔
      ∀ x ∈ env, x = (ChangedResult.ok, SendResult.sent) := by
  rw [sendLoop]
  induction env with
  | nil => simp
  | cons x rest ih =>
    obtain ⟨c, r⟩ := x
    rw [List.foldl_cons]
    cases c with
    | ok =>
      cases r with
      | sent =>
        rw [show sendLoopStep SendLoopOutcome.stillRunning
              (ChangedResult.ok, SendResult.sent) = SendLoopOutcome.stillRunning
            from rfl]
        simp [ih]
      | failed =>
        rw [show sendLoopStep SendLoopOutcome.stillRunning
              (ChangedResult.ok, SendResult.failed)
              = SendLoopOutcome.terminatedSendFailure from rfl,
          foldl_sendLoopStep_terminal rest _ (by simp)]
        simp
    | closed =>
      rw [show sendLoopStep SendLoopOutcome.stillRunning
            (ChangedResult.closed, r) = SendLoopOutcome.terminatedChannelClosed
          from by cases r <;> rfl,
        foldl_sendLoopStep_terminal rest _ (by simp)]
      simp

lemma sendLoop_first_exit :
    ∀ pre : List (ChangedResult × SendResult),
      (∀ x ∈ pre, x = (ChangedResult.ok, SendResult.sent)) →
      ∀ (rest : List (ChangedResult × SendResult)) (e : ChangedResult × SendResult),
        e ≠ (ChangedResult.ok, SendResult.sent) →
        sendLoop (pre ++ e :: rest)
          = (if e.1 = ChangedResult.closed then SendLoopOutcome.terminatedChannelClosed
             else SendLoopOutcome.terminatedSendFailure) := by
  intro pre
  induction pre with
  | nil =>
    intro _ rest e he
    obtain ⟨c, r⟩ := e
    rw [List.nil_append, sendLoop, List.foldl_cons]
    cases c with
    | ok =>
      cases r with
      | sent => exact absurd rfl he
      | failed =>
        rw [show sendLoopStep SendLoopOutcome.stillRunning
              (ChangedResult.ok, SendResult.failed)
              = SendLoopOutcome.terminatedSendFailure from rfl,
          foldl_sendLoopStep_terminal rest _ (by simp)]
        simp
    | closed =>
      rw [show sendLoopStep SendLoopOutcome.stillRunning
            (ChangedResult.closed, r) = SendLoopOutcome.terminatedChannelClosed
          from by cases r <;> rfl,
        foldl_sendLoopStep_terminal rest _ (by simp)]
      simp
  | cons x pre ih =>
    intro hpre rest e he
    have hx := hpre x (List.mem_cons_self x pre)
    subst hx
    have : sendLoop ((ChangedResult.ok, SendResult.sent) :: pre ++ e :: rest)
        = sendLoop (pre ++ e :: rest) := by
      rw [sendLoop, sendLoop, List.cons_append, List.foldl_cons,
        show sendLoopStep SendLoopOutcome.stillRunning
          (ChangedResult.ok, SendResult.sent) = SendLoopOutcome.stillRunning from rfl]
    rw [this]
    exact ih (fun y hy => hpre y (List.mem_cons_of_mem _ hy)) rest e he

/-- C8: the outbound loop of a session terminates exactly when the send to
the peer fails or the channel reports closed, and in no other case: it is
still running (blocked in `changed()`) after a finite stream of iteration
outcomes precisely when every iteration was a successful change
notification followed by a successful send, and the first deviating
iteration ends the loop, with cause channel-closed when `changed()` errored
and cause send-failure otherwise.  Both terminal outcomes are ordinary
values of `SendLoopOutcome` — the task body returns `()` either way, so a
channel-closed exit is a normal session end surfaced to no caller. -/
theorem send_loop_exit_conditions (env pre rest : List (ChangedResult × SendResult))
    (e : ChangedResult × SendResult)
    (hpre : ∀ x ∈ pre, x = (ChangedResult.ok, SendResult.sent))
    (he : e ≠ (ChangedResult.ok, SendResult.sent)) :
    (sendLoop env = SendLoopOutcome.stillRunning ↔
      ∀ x ∈ env, x = (ChangedResult.ok, SendResult.sent)) ∧
    sendLoop (pre ++ e :: rest)
      = (if e.1 = ChangedResult.closed then SendLoopOutcome.terminatedChannelClosed
         else SendLoopOutcome.terminatedSendFailure) :=
  ⟨sendLoop_stillRunning_iff env, sendLoop_first_exit pre hpre rest e he⟩

/-- Witness for C8: one successful iteration keeps the loop running, and a
closed-channel signal right after it ends the loop with the closed cause. -/
theorem send_loop_exit_conditions_witness :
    ((∀ x ∈ ([] : List (ChangedResult × SendResult)),
        x = (ChangedResult.ok, SendResult.sent)) ∧
     (ChangedResult.closed, SendResult.sent) ≠ (ChangedResult.ok, SendResult.sent)) ∧
    ((sendLoop [(ChangedResult.ok, SendResult.sent)] = SendLoopOutcome.stillRunning ↔
        ∀ x ∈ [(ChangedResult.ok, SendResult.sent)],
          x = (ChangedResult.ok, SendResult.sent)) ∧
     sendLoop (([] : List (ChangedResult × SendResult))
         ++ (ChangedResult.closed, SendResult.sent) :: [])
       = (if (ChangedResult.closed, SendResult.sent).1 = ChangedResult.closed
          then SendLoopOutcome.terminatedChannelClosed
          else SendLoopOutcome.terminatedSendFailure)) :=
  ⟨⟨by decide, by decide⟩,
   send_loop_exit_conditions [(ChangedResult.ok, SendResult.sent)] []
     [] (ChangedResult.closed, SendResult.sent) (by decide) (by decide)⟩

lemma recvLoopStep_absorb (out : RecvLoopOutcome)
    (h : out ≠ RecvLoopOutcome.stillRunning) (x : RecvItem) :
    recvLoopStep out x = out := by
  cases out with
  | stillRunning => exact absurd rfl h
  | closeRequested =>
    cases x with
    | frame m => cases m <;> rfl
    | ioError => rfl
    | streamEnd => rfl
  | connectionError =>
    cases x with
    | frame m => cases m <;> rfl
    | ioError => rfl
    | streamEnd => rfl
  | connectionEnded =>
    cases x with
    | frame m => cases m <;> rfl
    | ioError => rfl
    | streamEnd => rfl

lemma foldl_recvLoopStep_terminal (items : List RecvItem) (out : RecvLoopOutcome)
    (h : out ≠ RecvLoopOutcome.stillRunning) :
    items.foldl recvLoopStep out = out := by
  induction items with
  | nil => rfl
  | cons x rest ih => rw [List.foldl_cons, recvLoopStep_absorb out h x, ih]

lemma recvLoopStep_continuing (x : RecvItem) (hx : x.continuing = true) :
    recvLoopStep RecvLoopOutcome.stillRunning x = RecvLoopOutcome.stillRunning := by
  cases x with
  | frame m => cases m <;> first | rfl | exact absurd hx (by decide)
  | ioError => exact absurd hx (by decide)
  | streamEnd => exact absurd hx (by decide)

lemma recvLoop_stillRunning_iff (items : List RecvItem) :
    recvLoop items = RecvLoopOutcome.stillRunning ↔
      ∀ x ∈ items, x.continuing = true := by
  rw [recvLoop]
  induction items with
  | nil => simp
  | cons x rest ih =>
    rw [List.foldl_cons]
    by_cases hx : x.continuing = true
    · rw [recvLoopStep_continuing x hx]
      simp [ih, hx]
    · have hstep : recvLoopStep RecvLoopOutcome.stillRunning x
          ≠ RecvLoopOutcome.stillRunning := by
        cases x with
        | frame m => cases m <;> first | exact absurd rfl hx | decide
        | ioError => decide
        | streamEnd => decide
      rw [foldl_recvLoopStep_terminal rest _ hstep]
      simp [hstep, hx]

lemma recvLoop_skips_continuing :
    ∀ pre : List RecvItem, (∀ x ∈ pre, x.continuing = true) →
      ∀ rest : List RecvItem, recvLoop (pre ++ rest) = recvLoop rest := by
  intro pre
  induction pre with
  | nil => intro _ rest; rw [List.nil_append]
  | cons x pre ih =>
    intro hpre rest
    have hx := hpre x (List.mem_cons_self x pre)
    have : recvLoop ((x :: pre) ++ rest) = recvLoop (pre ++ rest) := by
      rw [recvLoop, recvLoop, List.cons_append, List.foldl_cons,
        recvLoopStep_continuing x hx]
    rw [this]
    exact ih (fun y hy => hpre y (List.mem_cons_of_mem _ hy)) rest

lemma recvLoop_first_exit (pre rest : List RecvItem) (e : RecvItem)
    (hpre : ∀ x ∈ pre, x.continuing = true) (he : e.continuing = false) :
    recvLoop (pre ++ e :: rest)
      = (if e = RecvItem.ioError then RecvLoopOutcome.connectionError
         else if e = RecvItem.streamEnd then RecvLoopOutcome.connectionEnded
         else RecvLoopOutcome.closeRequested) := by
  rw [recvLoop_skips_continuing pre hpre (e :: rest), recvLoop, List.foldl_cons]
  cases e with
  | frame m =>
    cases m with
    | close =>
      rw [show recvLoopStep RecvLoopOutcome.stillRunning
            (RecvItem.frame WsMessage.close) = RecvLoopOutcome.closeRequested
          from rfl,
        foldl_recvLoopStep_terminal rest _ (by simp)]
      simp
    | text s => exact absurd he (by simp [RecvItem.continuing])
    | binary => exact absurd he (by simp [RecvItem.continuing])
    | ping => exact absurd he (by simp [RecvItem.continuing])
    | pong => exact absurd he (by simp [RecvItem.continuing])
  | ioError =>
    rw [show recvLoopStep RecvLoopOutcome.stillRunning RecvItem.ioError
          = RecvLoopOutcome.connectionError from rfl,
      foldl_recvLoopStep_terminal rest _ (by simp)]
    simp
  | streamEnd =>
    rw [show recvLoopStep RecvLoopOutcome.stillRunning RecvItem.streamEnd
          = RecvLoopOutcome.connectionEnded from rfl,
      foldl_recvLoopStep_terminal rest _ (by simp)]
    simp

/-- C9: the inbound loop of a session keeps running precisely while every
received item is a non-close frame (text of any content, binary, ping or
pong — text is logged and discarded, never a termination cause), and it
terminates exactly at the first close frame, connection/IO error, or end of
stream, with the matching outcome; in particular a text frame anywhere is
simply skipped. -/
theorem recv_loop_exit_conditions (items pre rest : List RecvItem) (e : RecvItem)
    (s : String) (hpre : ∀ x ∈ pre, x.continuing = true)
    (he : e.continuing = false) :
    (recvLoop items = RecvLoopOutcome.stillRunning ↔
      ∀ x ∈ items, x.continuing = true) ∧
    (RecvItem.frame (WsMessage.text s)).continuing = true ∧
    recvLoop (pre ++ RecvItem.frame (WsMessage.text s) :: rest) = recvLoop rest ∧
    recvLoop (pre ++ e :: rest)
      = (if e = RecvItem.ioError then RecvLoopOutcome.connectionError
         else if e = RecvItem.streamEnd then RecvLoopOutcome.connectionEnded
         else RecvLoopOutcome.closeRequested) := by
  refine ⟨recvLoop_stillRunning_iff items, rfl, ?_, recvLoop_first_exit pre rest e hpre he⟩
  rw [show pre ++ RecvItem.frame (WsMessage.text s) :: rest
        = (pre ++ [RecvItem.frame (WsMessage.text s)]) ++ rest by simp]
  refine recvLoop_skips_continuing (pre ++ [RecvItem.frame (WsMessage.text s)]) ?_ rest
  intro y hy
  rcases List.mem_append.mp hy with hy1 | hy2
  · exact hpre y hy1
  · rw [List.mem_singleton.mp hy2]; rfl

/-- Witness for C9: a text frame and a ping are skipped, and a close frame
after them ends the loop with the close outcome. -/
theorem recv_loop_exit_conditions_witness :
    ((∀ x ∈ [RecvItem.frame (WsMessage.text "hello"), RecvItem.frame WsMessage.ping],
        x.continuing = true) ∧
     (RecvItem.frame WsMessage.close).continuing = false) ∧
    ((recvLoop [RecvItem.frame (WsMessage.text "hello"), RecvItem.frame WsMessage.ping]
        = RecvLoopOutcome.stillRunning ↔
      ∀ x ∈ [RecvItem.frame (WsMessage.text "hello"), RecvItem.frame WsMessage.ping],
        x.continuing = true) ∧
     (RecvItem.frame (WsMessage.text "hi")).continuing = true ∧
     recvLoop ([RecvItem.frame (WsMessage.text "hello"), RecvItem.frame WsMessage.ping]
         ++ RecvItem.frame (WsMessage.text "hi") :: []) = recvLoop [] ∧
     recvLoop ([RecvItem.frame (WsMessage.text "hello"), RecvItem.frame WsMessage.ping]
         ++ RecvItem.frame WsMessage.close :: [])
       = (if RecvItem.frame WsMessage.close = RecvItem.ioError
          then RecvLoopOutcome.connectionError
          else if RecvItem.frame WsMessage.close = RecvItem.streamEnd
          then RecvLoopOutcome.connectionEnded
          else RecvLoopOutcome.closeRequested)) :=
  ⟨⟨by decide, by decide⟩,
   recv_loop_exit_conditions
     [RecvItem.frame (WsMessage.text "hello"), RecvItem.frame WsMessage.ping]
     [RecvItem.frame (WsMessage.text "hello"), RecvItem.frame WsMessage.ping]
     [] (RecvItem.frame WsMessage.close) "hi" (by decide) (by decide)⟩

/-! Section: lemmas and claim theorems about the watch-channel trace machine. -/

lemma runSteps_nil (s : SubState V) : runSteps [] s = s := rfl

lemma runSteps_cons (st : Step V) (sched : List (Step V)) (s : SubState V) :
    runSteps (st :: sched) s = runSteps sched (stepRun st s) := by
  simp [runSteps]

lemma runSteps_append (l1 l2 : List (Step V)) (s : SubState V) :
    runSteps (l1 ++ l2) s = runSteps l2 (runSteps l1 s) := by
  simp [runSteps, List.foldl_append]

lemma stepRun_publish (v : V) (s : SubState V) :
    stepRun (Step.publish v) s = { s with value := v, version := s.version + 1 } := rfl

lemma stepRun_wake (s : SubState V) :
    stepRun Step.wake s
      = if s.pending = false ∧ s.seen ≠ s.version then
          { s with seen := s.version, pending := true }
        else s := rfl

lemma stepRun_read (s : SubState V) :
    stepRun Step.read s
      = if s.pending then
          { s with pending := false, obs := s.obs ++ [(s.version, s.value)] }
        else s := rfl

lemma pubsOf_nil : pubsOf ([] : List (Step V)) = [] := rfl

lemma pubsOf_publish_cons (v : V) (sched : List (Step V)) :
    pubsOf (Step.publish v :: sched) = v :: pubsOf sched := by
  simp [pubsOf, pubOf]

lemma pubsOf_wake_cons (sched : List (Step V)) :
    pubsOf (Step.wake :: sched) = pubsOf sched := by
  simp [pubsOf, pubOf]

lemma pubsOf_read_cons (sched : List (Step V)) :
    pubsOf (Step.read :: sched) = pubsOf sched := by
  simp [pubsOf, pubOf]

lemma slotValue_nil (v0 : V) : slotValue v0 [] = v0 := rfl

lemma slotValue_cons (v0 v : V) (vs : List V) :
    slotValue v0 (v :: vs) = slotValue v vs := by
  simp [slotValue]

lemma slotValue_concat (v0 v : V) (l : List V) : slotValue v0 (l ++ [v]) = v := by
  simp [slotValue, List.foldl_append]

lemma slotValue_getLast (v0 : V) (vs : List V) (h : vs ≠ []) :
    slotValue v0 vs = vs.getLast h := by
  induction vs generalizing v0 with
  | nil => exact absurd rfl h
  | cons a l ih =>
    cases l with
    | nil => rw [slotValue_cons, slotValue_nil]; rfl
    | cons b m =>
      rw [slotValue_cons, ih a (List.cons_ne_nil b m),
        List.getLast_cons (List.cons_ne_nil b m)]

lemma inv_init (v0 : V) : Inv v0 [] (initState v0) := by
  refine ⟨rfl, rfl, Nat.le_refl 0, ?_, ?_, ?_⟩
  · intro hp; simp [initState] at hp
  · intro p hp; exact absurd hp (List.not_mem_nil p)
  · simp [initState]

lemma inv_publish (v0 : V) (pubs : List V) (s : SubState V) (h : Inv v0 pubs s)
    (v : V) : Inv v0 (pubs ++ [v]) (stepRun (Step.publish v) s) := by
  rw [stepRun_publish]
  refine ⟨?_, ?_, ?_, h.pending_pos, ?_, h.obs_sorted⟩
  · simp [h.version_eq]
  · simp [slotValue_concat]
  · exact Nat.le_trans h.seen_le (Nat.le_succ _)
  · intro p hp
    obtain ⟨h1, h2, h3⟩ := h.obs_mem p hp
    refine ⟨h1, by simp; omega, ?_⟩
    rw [List.take_append_of_le_length h2]
    exact h3

lemma inv_wake (v0 : V) (pubs : List V) (s : SubState V) (h : Inv v0 pubs s) :
    Inv v0 pubs (stepRun Step.wake s) := by
  rw [stepRun_wake]
  split
  case isTrue hc =>
    refine ⟨h.version_eq, h.value_eq, Nat.le_refl _, ?_, h.obs_mem, h.obs_sorted⟩
    intro _
    show 1 ≤ s.version
    have h1 := h.seen_le
    have h2 := hc.2
    omega
  case isFalse _ => exact h

lemma inv_read (v0 : V) (pubs : List V) (s : SubState V) (h : Inv v0 pubs s) :
    Inv v0 pubs (stepRun Step.read s) := by
  rw [stepRun_read]
  split
  case isTrue hp =>
    have hseen1 : 1 ≤ s.seen := h.pending_pos hp
    have hv1 : 1 ≤ s.version := Nat.le_trans hseen1 h.seen_le
    refine ⟨h.version_eq, h.value_eq, h.seen_le, ?_, ?_, ?_⟩
    · intro hcontra; simp at hcontra
    · intro p hp2
      rw [List.mem_append] at hp2
      rcases hp2 with hold | hnew
      · exact h.obs_mem p hold
      · rw [List.mem_singleton] at hnew
        subst hnew
        refine ⟨hv1, Nat.le_of_eq h.version_eq, ?_⟩
        rw [h.version_eq, List.take_length]
        exact h.value_eq
    · rw [List.map_append, List.map_singleton, List.pairwise_append]
      refine ⟨h.obs_sorted, List.pairwise_singleton _ _, ?_⟩
      intro a ha b hb
      rw [List.mem_singleton] at hb
      subst hb
      rw [List.mem_map] at ha
      obtain ⟨p, hpmem, rfl⟩ := ha
      have := (h.obs_mem p hpmem).2.1
      rw [h.version_eq]
      exact this
  case isFalse _ => exact h

lemma inv_runSteps : ∀ (sched : List (Step V)) (v0 : V) (pubs : List V)
    (s : SubState V), Inv v0 pubs s → Inv v0 (pubs ++ pubsOf sched) (runSteps sched s) := by
  intro sched
  induction sched with
  | nil =>
    intro v0 pubs s h
    rw [pubsOf_nil, List.append_nil, runSteps_nil]
    exact h
  | cons st rest ih =>
    intro v0 pubs s h
    rw [runSteps_cons]
    cases st with
    | publish v =>
      rw [pubsOf_publish_cons]
      have h3 := ih v0 (pubs ++ [v]) _ (inv_publish v0 pubs s h v)
      rw [List.append_assoc] at h3
      simpa using h3
    | wake =>
      rw [pubsOf_wake_cons]
      exact ih v0 pubs _ (inv_wake v0 pubs s h)
    | read =>
      rw [pubsOf_read_cons]
      exact ih v0 pubs _ (inv_read v0 pubs s h)

/-- C2 (counterexample): with publishes `1, 2` and the second publish
racing between the subscriber's `changed()` and its `borrow()` — the
schedule `dupSched` — the outbound loop sends the value `2` twice, so its
observation sequence `[2, 2]` is not a subsequence of the publish order
`[1, 2]` (the source reads `rx.borrow()` rather than
`rx.borrow_and_update()`, so the read of a racing publish does not mark it
seen, and the next iteration delivers it again). -/
theorem duplicate_delivery :
    ((runSteps dupSched (initState (0 : Nat))).obs.map Prod.snd = [2, 2]) ∧
    pubsOf dupSched = [1, 2] ∧
    ¬ List.Sublist ((runSteps dupSched (initState (0 : Nat))).obs.map Prod.snd)
        (pubsOf dupSched) := by
  refine ⟨by decide, by decide, by decide⟩

/-- C2 (amended): over every interleaving of publishes with one
subscriber's outbound loop, the versions at which the loop reads are
non-decreasing — for publishes `vi, vj` with `i < j`, never `vi` after `vj`
— and every observed value is the value of the publish it was read at
(never the seed, index between 1 and the number of publishes); the
observation sequence is thus the publish subsequence given by those
versions, except that a publish racing between `changed()` and `borrow()`
can be delivered twice in a row. -/
theorem subscriber_observation_order (v0 : V) (sched : List (Step V)) :
    ((runSteps sched (initState v0)).obs.map Prod.fst).Pairwise (· ≤ ·) ∧
    ∀ p ∈ (runSteps sched (initState v0)).obs,
      1 ≤ p.1 ∧ p.1 ≤ (pubsOf sched).length ∧
      p.2 = slotValue v0 ((pubsOf sched).take p.1) := by
  have h := inv_runSteps sched v0 [] (initState v0) (inv_init v0)
  rw [List.nil_append] at h
  exact ⟨h.obs_sorted, h.obs_mem⟩

lemma runSteps_publishes (vs : List V) : ∀ s : SubState V,
    runSteps (vs.map Step.publish) s
      = { s with value := slotValue s.value vs, version := s.version + vs.length } := by
  induction vs with
  | nil =>
    intro s
    rw [List.map_nil, runSteps_nil]
    cases s
    simp [slotValue_nil]
  | cons v vs ih =>
    intro s
    obtain ⟨val, ver, seen, pend, obs⟩ := s
    rw [List.map_cons, runSteps_cons, stepRun_publish, ih]
    simp [slotValue_cons]
    omega

lemma connectAfter_eq (v0 : V) (pubs : List V) :
    connectAfter v0 pubs
      = { value := slotValue v0 pubs, version := pubs.length, seen := 0,
          pending := false, obs := [] } := by
  rw [connectAfter, runSteps_publishes]
  simp [initState]

lemma wakeRead_connectAfter (v0 : V) (pubs : List V) (h : pubs ≠ []) :
    runSteps [Step.wake, Step.read] (connectAfter v0 pubs)
      = { value := slotValue v0 pubs, version := pubs.length, seen := pubs.length,
          pending := false, obs := [(pubs.length, slotValue v0 pubs)] } := by
  have hlen : (0 : Nat) ≠ pubs.length :=
    fun h0 => h (List.length_eq_zero.mp h0.symm)
  rw [connectAfter_eq, runSteps_cons, runSteps_cons, runSteps_nil, stepRun_wake,
    if_pos ⟨rfl, hlen⟩, stepRun_read, if_pos rfl]
  simp

lemma round_step (v : V) (s : SubState V) (h1 : s.pending = false)
    (h2 : s.seen = s.version) :
    runSteps [Step.publish v, Step.wake, Step.read] s
      = { value := v, version := s.version + 1, seen := s.version + 1,
          pending := false, obs := s.obs ++ [(s.version + 1, v)] } := by
  rw [runSteps_cons, runSteps_cons, runSteps_cons, runSteps_nil, stepRun_publish,
    stepRun_wake, if_pos ⟨h1, show s.seen ≠ s.version + 1 by omega⟩, stepRun_read,
    if_pos rfl]

lemma checkEach_nil : checkEach ([] : List V) = [] := by
  simp [checkEach]

lemma checkEach_cons (v : V) (vs : List V) :
    checkEach (v :: vs)
      = [Step.publish v, Step.wake, Step.read] ++ checkEach vs := by
  simp [checkEach]

lemma checkEach_obs : ∀ (vs : List V) (s : SubState V), s.pending = false →
    s.seen = s.version →
    ((runSteps (checkEach vs) s).obs.map Prod.snd = s.obs.map Prod.snd ++ vs) ∧
    (runSteps (checkEach vs) s).pending = false ∧
    (runSteps (checkEach vs) s).seen = (runSteps (checkEach vs) s).version := by
  intro vs
  induction vs with
  | nil =>
    intro s h1 h2
    rw [checkEach_nil, runSteps_nil]
    exact ⟨by simp, h1, h2⟩
  | cons v vs ih =>
    intro s h1 h2
    rw [checkEach_cons, runSteps_append, round_step v s h1 h2]
    obtain ⟨ho, hp, hs⟩ := ih
      { value := v, version := s.version + 1, seen := s.version + 1,
        pending := false, obs := s.obs ++ [(s.version + 1, v)] } rfl rfl
    refine ⟨?_, hp, hs⟩
    rw [ho]
    simp

/-- C1: coalescing.  For a nonempty publish sequence `vs`: a subscriber
whose single check happens only after all publishes observes exactly the
last published value and no intermediate one, while a subscriber that waits
for a change and reads after each individual publish observes every value
in publish order. -/
theorem coalescing_observation (v0 : V) (vs : List V) (h : vs ≠ []) :
    ((runSteps (checkAfterAll vs) (initState v0)).obs.map Prod.snd
      = [vs.getLast h]) ∧
    ((runSteps (checkEach vs) (initState v0)).obs.map Prod.snd = vs) := by
  constructor
  · rw [checkAfterAll, runSteps_append,
      show runSteps (vs.map Step.publish) (initState v0) = connectAfter v0 vs
        from rfl,
      wakeRead_connectAfter v0 vs h]
    simp [slotValue_getLast v0 vs h]
  · have := (checkEach_obs vs (initState v0) rfl rfl).1
    simpa using this

/-- Witness for C1 with publishes `1, 2, 3`: the late checker sees only
`3`; the per-publish checker sees `1, 2, 3`. -/
theorem coalescing_observation_witness :
    (([1, 2, 3] : List Nat) ≠ []) ∧
    (((runSteps (checkAfterAll [1, 2, 3]) (initState (0 : Nat))).obs.map Prod.snd
        = [List.getLast [1, 2, 3] (by decide)]) ∧
     ((runSteps (checkEach [1, 2, 3]) (initState (0 : Nat))).obs.map Prod.snd
        = [1, 2, 3])) :=
  ⟨by decide, coalescing_observation 0 [1, 2, 3] (by decide)⟩

/-- C10 (counterexample): a subscriber that connects after the single
publish of `1` — its cloned receiver inheriting `seen = 0` from the
never-read receiver created at startup — receives the value `1`
immediately, although no publish happens after its subscription; the claim
that no frame is sent until the first post-subscription publish is false. -/
theorem late_subscriber_immediate_frame :
    pubsOf ([Step.wake, Step.read] : List (Step Nat)) = [] ∧
    (runSteps [Step.wake, Step.read] (connectAfter (0 : Nat) [1])).obs.map Prod.snd
      = [1] := by
  refine ⟨by decide, by decide⟩

/-- C10 (amended): the seed value installed at startup is never delivered
(every observation is of a publish, version at least 1), and a subscriber
that connects before any publish sends nothing until the first publish;
but a subscriber that connects after one or more publishes immediately
receives the latest already-published value, because its cloned receiver
inherits seen-version 0 from the state's original receiver instead of the
current version. -/
theorem first_frame_delivery (v0 : V) (pubs : List V) (sched : List (Step V))
    (h : pubs ≠ []) :
    (∀ p ∈ (runSteps sched (initState v0)).obs, 1 ≤ p.1) ∧
    (pubsOf sched = [] → (runSteps sched (initState v0)).obs = []) ∧
    (runSteps [Step.wake, Step.read] (connectAfter v0 pubs)).obs.map Prod.snd
      = [pubs.getLast h] := by
  have hinv := inv_runSteps sched v0 [] (initState v0) (inv_init v0)
  rw [List.nil_append] at hinv
  refine ⟨fun p hp => (hinv.obs_mem p hp).1, ?_, ?_⟩
  · intro hnone
    cases hobs : (runSteps sched (initState v0)).obs with
    | nil => rfl
    | cons p rest =>
      have hmem : p ∈ (runSteps sched (initState v0)).obs := by
        rw [hobs]; exact List.mem_cons_self p rest
      have hub := (hinv.obs_mem p hmem).2.1
      have hlb := (hinv.obs_mem p hmem).1
      rw [hnone] at hub
      simp at hub
      omega
  · rw [wakeRead_connectAfter v0 pubs h]
    simp [slotValue_getLast v0 pubs h]

/-- Witness for C10: with one pre-subscription publish of `5` the late
subscriber receives `5` at once, and a schedule with no publish yields no
frame. -/
theorem first_frame_delivery_witness :
    (([5] : List Nat) ≠ []) ∧
    ((∀ p ∈ (runSteps ([Step.wake] : List (Step Nat)) (initState 0)).obs, 1 ≤ p.1) ∧
     (pubsOf ([Step.wake] : List (Step Nat)) = [] →
        (runSteps ([Step.wake] : List (Step Nat)) (initState 0)).obs = []) ∧
     (runSteps [Step.wake, Step.read] (connectAfter (0 : Nat) [5])).obs.map Prod.snd
       = [List.getLast [5] (by decide)]) :=
  ⟨by decide, first_frame_delivery 0 [5] [Step.wake] (by decide)⟩

end Shredr
